import Mathlib

/-!
Shallow embedding of the mini-agent-mcp workflow/task core.

The model mirrors the TypeScript sources:
- `src/src/types/index.ts` (entity shapes and enum validators),
- `src/src/db/init.sql` (UNIQUE / CHECK constraints, timestamp triggers),
- `src/src/repositories/ProjectRepository.ts`, `TaskRepository.ts`,
  `AgentSessionRepository.ts`, `WorkflowRepository.ts`,
- the MCP server handlers (`handleWorkflowHandoff`, `handleProjectCreate`,
  `handleContextSave`) from `src/server.ts`.

The SQLite database is a record of entity lists plus a logical clock that
stands in for CURRENT_TIMESTAMP and for rowid/id generation (ids in the
source are random 32-hex strings; only freshness matters).  The connection
does not enable `PRAGMA foreign_keys` (see `database.ts`), so foreign keys
are not enforced by the model either.  A repository method that `throw`s is
modelled as `Except.error`; stateful methods thread the database explicitly
and an error leaves the caller's database untouched (`runExc`).  JavaScript
falsiness of strings (`!s` is true for `undefined`, `null` and `""`) is
modelled on `Option String` by `jsFalsy`.
-/

namespace MiniAgent

/-- Scalar JSON values, enough for the schemaless context/deliverables blobs. -/
inductive JVal where
  | jnum (n : Int)
  | jstr (s : String)
  | jbool (b : Bool)
  deriving DecidableEq, Repr

/-- A `Record<string, any>` blob, as an ordered key/value list. -/
abbrev Ctx := List (String × JVal)

/-- JS falsiness for an optional string argument: `undefined`, `null` and `""`
are falsy. -/
def jsFalsy : Option String → Bool
  | none => true
  | some s => s = ""

/-- `a || d` for an optional string, as used for defaulted fields. -/
def jsOr (a : Option String) (d : String) : String :=
  match a with
  | none => d
  | some s => if s = "" then d else s

-- Entity shapes from `types/index.ts`.  The row ↔ entity conversion of the
-- source is the identity here (JSON columns are kept structured).

structure Project where
  id : String
  name : String
  description : Option String
  status : String
  currentPhase : String
  createdAt : Nat
  updatedAt : Nat
  deriving DecidableEq, Repr

structure Task where
  id : String
  projectId : String
  parentId : Option String
  title : String
  description : Option String
  phase : String
  status : String
  assigneeType : Option String
  priority : Int
  requirementsRefs : List String
  dependencies : List String
  createdAt : Nat
  updatedAt : Nat
  deriving DecidableEq, Repr

structure AgentSession where
  id : String
  projectId : String
  taskId : Option String
  agentType : String
  contextData : Ctx
  lastActive : Nat
  deriving DecidableEq, Repr

structure CheckpointData where
  completedTasks : List String
  currentTask : Option String
  phaseDeliverables : Ctx
  deriving DecidableEq, Repr

structure WorkflowCheckpoint where
  id : String
  projectId : String
  phase : String
  checkpointData : CheckpointData
  createdAt : Nat
  deriving DecidableEq, Repr

/-- The SQLite database: one list per table plus a logical clock standing in
for CURRENT_TIMESTAMP and for generated ids. -/
structure DB where
  projects : List Project
  tasks : List Task
  sessions : List AgentSession
  checkpoints : List WorkflowCheckpoint
  clock : Nat
  deriving DecidableEq, Repr

/-- Fresh id generated at insert time (`lower(hex(randomblob(16)))` in the
schema; only freshness is relevant). -/
def genId (n : Nat) : String := "id-" ++ toString n

-- Enum validators from `types/index.ts`.

def isValidProjectStatus (s : String) : Bool :=
  ["active", "paused", "completed"].contains s

def isValidProjectPhase (p : String) : Bool :=
  ["requirements", "design", "tasks", "execute"].contains p

def isValidTaskStatus (s : String) : Bool :=
  ["pending", "in_progress", "blocked", "completed"].contains s

def isValidTaskPhase (p : String) : Bool :=
  ["requirements", "design", "tasks", "execute"].contains p

def isValidAgentType (t : String) : Bool :=
  ["requirements", "design", "tasks", "implementation"].contains t

-- `String.prototype.includes`, used by `handleProjectCreate` to pattern-match
-- the SQLite UNIQUE-constraint message.

/-- Whether `p` is an initial segment of `s` (character lists). -/
def listIsPre : List Char → List Char → Bool
  | [], _ => true
  | _ :: _, [] => false
  | a :: as, b :: bs => a = b && listIsPre as bs

/-- Whether `p` occurs contiguously inside `s` (character lists). -/
def listHasSub (p : List Char) : List Char → Bool
  | [] => p.isEmpty
  | b :: bs => listIsPre p (b :: bs) || listHasSub p bs

/-- JS `s.includes(p)`. -/
def strIncludes (s p : String) : Bool := listHasSub p.toList s.toList

/-- JS `Array.prototype.indexOf`: index of the first occurrence, `-1` when
absent. -/
def jsIndexOf : List String → String → Int
  | [], _ => -1
  | a :: t, s =>
    if a = s then 0
    else
      let r := jsIndexOf t s
      if r = -1 then -1 else r + 1

/-- Run a stateful repository call at the system boundary: a thrown error
leaves the database as it was (`(some message, db)`); success yields the new
database. -/
def runExc {α : Type} (db : DB) (r : Except String (α × DB)) : Option String × DB :=
  match r with
  | .ok (_, db') => (none, db')
  | .error e => (some e, db)

-- ProjectRepository (`ProjectRepository.ts`)

/-- `Partial<Project>` as accepted by `ProjectRepository.create`. -/
structure ProjectItem where
  name : Option String := none
  description : Option String := none
  status : Option String := none
  currentPhase : Option String := none

/-- `SELECT * FROM projects WHERE id = ?` (id is the primary key). -/
def findProject (db : DB) (id : String) : Option Project :=
  db.projects.find? (fun p => p.id = id)

/-- `ProjectRepository.create`: requires a (truthy) name, applies the column
defaults, and runs the INSERT against the schema's UNIQUE(name) and CHECK
constraints (`init.sql`). -/
def projectCreate (db : DB) (item : ProjectItem) : Except String (Project × DB) :=
  if jsFalsy item.name then .error "Project name is required"
  else
    let nm := item.name.getD ""
    let status := jsOr item.status "active"
    let phase := jsOr item.currentPhase "requirements"
    if db.projects.any (fun p => p.name = nm) then
      .error "UNIQUE constraint failed: projects.name"
    else if !(isValidProjectStatus status) then
      .error "CHECK constraint failed: status"
    else if !(isValidProjectPhase phase) then
      .error "CHECK constraint failed: current_phase"
    else
      let p : Project :=
        { id := genId db.clock, name := nm, description := item.description,
          status := status, currentPhase := phase,
          createdAt := db.clock, updatedAt := db.clock }
      .ok (p, { db with projects := db.projects ++ [p], clock := db.clock + 1 })

/-- `Partial<Project>` as accepted by `ProjectRepository.update`
(`description` is nullable, hence doubly optional). -/
structure ProjectUpdates where
  name : Option String := none
  description : Option (Option String) := none
  status : Option String := none
  currentPhase : Option String := none

/-- Whether `ProjectRepository.update` builds at least one SET clause. -/
def projectHasClause (u : ProjectUpdates) : Bool :=
  u.name.isSome || u.description.isSome || u.status.isSome || u.currentPhase.isSome

/-- Apply the SET clauses of `ProjectRepository.update` to one row; the
`update_projects_timestamp` trigger refreshes `updated_at`. -/
def applyProjectUpdates (p : Project) (u : ProjectUpdates) (now : Nat) : Project :=
  { p with
    name := u.name.getD p.name,
    description := u.description.getD p.description,
    status := u.status.getD p.status,
    currentPhase := u.currentPhase.getD p.currentPhase,
    updatedAt := now }

/-- `ProjectRepository.update`: validates status/phase values while building
the SET clauses (before any write), returns `findById` when no clause was
built, `none` when the UPDATE matched no row; the UNIQUE(name) constraint of
the schema still applies to a name change. -/
def projectUpdate (db : DB) (id : String) (u : ProjectUpdates) :
    Except String (Option Project × DB) :=
  match u.status with
  | some s =>
    if !(isValidProjectStatus s) then .error ("Invalid project status: " ++ s)
    else projectUpdateChecked db id u
  | none => projectUpdateChecked db id u
where
  projectUpdateChecked (db : DB) (id : String) (u : ProjectUpdates) :
      Except String (Option Project × DB) :=
    match u.currentPhase with
    | some ph =>
      if !(isValidProjectPhase ph) then .error ("Invalid project phase: " ++ ph)
      else projectUpdateRun db id u
    | none => projectUpdateRun db id u
  projectUpdateRun (db : DB) (id : String) (u : ProjectUpdates) :
      Except String (Option Project × DB) :=
    if !(projectHasClause u) then .ok (findProject db id, db)
    else
      match findProject db id with
      | none => .ok (none, db)
      | some _ =>
        if u.name.any (fun nm => db.projects.any (fun q => q.name = nm && q.id ≠ id)) then
          .error "UNIQUE constraint failed: projects.name"
        else
          let db' : DB :=
            { db with
              projects := db.projects.map
                (fun q => if q.id = id then applyProjectUpdates q u db.clock else q),
              clock := db.clock + 1 }
          .ok (findProject db' id, db')

-- TaskRepository (`TaskRepository.ts`)

/-- The filter object of `TaskRepository.findByProject`; string filters are
skipped when falsy, `parentId` is applied whenever not `undefined`. -/
structure TaskFilter where
  status : Option String := none
  phase : Option String := none
  assigneeType : Option String := none
  parentId : Option (Option String) := none

/-- WHERE clause of `findByProject`. -/
def taskMatchesFilter (pid : String) (f : TaskFilter) (t : Task) : Bool :=
  t.projectId = pid
    && (jsFalsy f.status || t.status = f.status.getD "")
    && (jsFalsy f.phase || t.phase = f.phase.getD "")
    && (jsFalsy f.assigneeType || t.assigneeType = some (f.assigneeType.getD ""))
    && (match f.parentId with
        | none => true
        | some none => t.parentId = none
        | some (some p) => t.parentId = some p)

/-- `ORDER BY priority DESC, created_at ASC` of `findByProject`. -/
def taskLe (a b : Task) : Bool :=
  a.priority > b.priority || (a.priority = b.priority && a.createdAt ≤ b.createdAt)

/-- Insert into a sorted list (helper of the ORDER BY model). -/
def sortInsert (le : Task → Task → Bool) (t : Task) : List Task → List Task
  | [] => [t]
  | b :: rest => if le t b then t :: b :: rest else b :: sortInsert le t rest

/-- Stable insertion sort modelling the SQL ORDER BY clause. -/
def sortTasks (le : Task → Task → Bool) : List Task → List Task
  | [] => []
  | a :: rest => sortInsert le a (sortTasks le rest)

/-- `TaskRepository.findByProject`. -/
def taskFindByProject (db : DB) (pid : String) (f : TaskFilter) : List Task :=
  sortTasks taskLe (db.tasks.filter (taskMatchesFilter pid f))

/-- `SELECT * FROM tasks WHERE id = ?` (id is the primary key). -/
def findTask (db : DB) (id : String) : Option Task :=
  db.tasks.find? (fun t => t.id = id)

/-- `Partial<Task>` as accepted by `TaskRepository.update`. -/
structure TaskUpdates where
  title : Option String := none
  description : Option (Option String) := none
  status : Option String := none
  assigneeType : Option (Option String) := none
  priority : Option Int := none
  requirementsRefs : Option (List String) := none
  dependencies : Option (List String) := none

/-- Whether `TaskRepository.update` builds at least one SET clause. -/
def taskHasClause (u : TaskUpdates) : Bool :=
  u.title.isSome || u.description.isSome || u.status.isSome || u.assigneeType.isSome
    || u.priority.isSome || u.requirementsRefs.isSome || u.dependencies.isSome

/-- Apply the SET clauses of `TaskRepository.update` to one row; the
`update_tasks_timestamp` trigger refreshes `updated_at`. -/
def applyTaskUpdates (t : Task) (u : TaskUpdates) (now : Nat) : Task :=
  { t with
    title := u.title.getD t.title,
    description := u.description.getD t.description,
    status := u.status.getD t.status,
    assigneeType := u.assigneeType.getD t.assigneeType,
    priority := u.priority.getD t.priority,
    requirementsRefs := u.requirementsRefs.getD t.requirementsRefs,
    dependencies := u.dependencies.getD t.dependencies,
    updatedAt := now }

/-- The UPDATE statement of `TaskRepository.update`, after validation. -/
def taskUpdateRun (db : DB) (id : String) (u : TaskUpdates) : Option Task × DB :=
  if !(taskHasClause u) then (findTask db id, db)
  else
    match findTask db id with
    | none => (none, db)
    | some _ =>
      let db' : DB :=
        { db with
          tasks := db.tasks.map
            (fun t => if t.id = id then applyTaskUpdates t u db.clock else t),
          clock := db.clock + 1 }
      (findTask db' id, db')

/-- `TaskRepository.update`: an invalid `status` value is rejected while the
SET clauses are being built, before the UPDATE statement runs. -/
def taskUpdate (db : DB) (id : String) (u : TaskUpdates) :
    Except String (Option Task × DB) :=
  match u.status with
  | some s =>
    if !(isValidTaskStatus s) then .error ("Invalid task status: " ++ s)
    else .ok (taskUpdateRun db id u)
  | none => .ok (taskUpdateRun db id u)

/-- `TaskRepository.checkDependencies`: true for a missing task or an empty
dependency list, else `COUNT(*)` of tasks `WHERE id IN deps AND status !=
'completed'` must be zero. -/
def checkDependencies (db : DB) (taskId : String) : Bool :=
  match findTask db taskId with
  | none => true
  | some t =>
    if t.dependencies = [] then true
    else
      (db.tasks.filter
        (fun u => t.dependencies.contains u.id && u.status ≠ "completed")).length = 0

/-- The node arena built by `getTaskTree`: the shared mutable `TaskNode`
records are represented by the children map (task id ↦ attached children, in
attachment order) together with the root list. -/
structure Forest where
  children : String → List Task
  roots : List Task

/-- Whether the second pass of `getTaskTree` attaches `t` under a parent:
`task.parentId && taskMap.has(task.parentId)` (`""` is falsy). -/
def parentResolved (ids : List String) (t : Task) : Bool :=
  match t.parentId with
  | none => false
  | some p => p ≠ "" && ids.contains p

/-- One step of the second pass of `getTaskTree`: push onto the parent's
children list when the parent id is truthy and present, else onto the roots. -/
def buildStep (ids : List String) (f : Forest) (t : Task) : Forest :=
  match t.parentId with
  | some p =>
    if p ≠ "" && ids.contains p then
      { f with children := fun k => if k = p then f.children k ++ [t] else f.children k }
    else { f with roots := f.roots ++ [t] }
  | none => { f with roots := f.roots ++ [t] }

/-- The two passes of `TaskRepository.getTaskTree` over a flat task list:
first pass keys the arena by the task ids, second pass attaches every task
exactly once. -/
def buildTaskTree (tasks : List Task) : Forest :=
  tasks.foldl (buildStep (tasks.map (fun t => t.id))) ⟨fun _ => [], []⟩

/-- `TaskRepository.getTaskTree`. -/
def getTaskTree (db : DB) (pid : String) : Forest :=
  buildTaskTree (taskFindByProject db pid {})

-- AgentSessionRepository (`AgentSessionRepository.ts`)

/-- `Partial<AgentSession>` as accepted by `AgentSessionRepository.create`. -/
structure SessionItem where
  projectId : Option String := none
  taskId : Option String := none
  agentType : Option String := none
  contextData : Option Ctx := none

/-- `AgentSessionRepository.create`: requires truthy projectId and agentType,
validates the agent type, and inserts a new row (a `null` context is read
back as `{}` by `agentSessionFromRow`). -/
def sessionCreate (db : DB) (item : SessionItem) : Except String (AgentSession × DB) :=
  if jsFalsy item.projectId || jsFalsy item.agentType then
    .error "AgentSession projectId and agentType are required"
  else
    let ty := item.agentType.getD ""
    if !(isValidAgentType ty) then .error ("Invalid agent type: " ++ ty)
    else
      let s : AgentSession :=
        { id := genId db.clock, projectId := item.projectId.getD "",
          taskId := item.taskId, agentType := ty,
          contextData := item.contextData.getD [],
          lastActive := db.clock }
      .ok (s, { db with sessions := db.sessions ++ [s], clock := db.clock + 1 })

/-- `SELECT * FROM agent_sessions WHERE id = ?`. -/
def findSession (db : DB) (id : String) : Option AgentSession :=
  db.sessions.find? (fun s => s.id = id)

/-- Pick the row with the greatest `last_active` (ORDER BY last_active DESC
LIMIT 1; ties keep the earlier row, SQLite leaves them unspecified). -/
def pickMostRecent : List AgentSession → Option AgentSession
  | [] => none
  | s :: rest =>
    match pickMostRecent rest with
    | none => some s
    | some b => if b.lastActive > s.lastActive then some b else some s

/-- `AgentSessionRepository.findByProjectAndType`. -/
def findByProjectAndType (db : DB) (pid ty : String) : Option AgentSession :=
  pickMostRecent (db.sessions.filter (fun s => s.projectId = pid && s.agentType = ty))

/-- JS shallow spread `{...old, ...new}`: keys of `old` keep their position,
values overridden by `new`; new keys appended in order. -/
def ctxMerge (old new : Ctx) : Ctx :=
  old.map (fun kv =>
    match new.find? (fun kv2 => kv2.1 = kv.1) with
    | some kv2 => kv2
    | none => kv)
  ++ new.filter (fun kv2 => !(old.any (fun kv => kv.1 = kv2.1)))

/-- `AgentSessionRepository.updateContext`: merge the supplied partial context
into the existing blob and refresh `last_active`. -/
def updateContext (db : DB) (id : String) (context : Ctx) :
    Except String (Unit × DB) :=
  match findSession db id with
  | none => .error ("Agent session not found: " ++ id)
  | some session =>
    let updated := ctxMerge session.contextData context
    let db' : DB :=
      { db with
        sessions := db.sessions.map
          (fun s => if s.id = id then { s with contextData := updated, lastActive := db.clock } else s),
        clock := db.clock + 1 }
    .ok ((), db')

-- WorkflowRepository (`WorkflowRepository.ts`)

/-- `Partial<WorkflowCheckpoint>` as accepted by `WorkflowRepository.create`. -/
structure CheckpointItem where
  projectId : Option String := none
  phase : Option String := none
  checkpointData : Option CheckpointData := none

/-- `WorkflowRepository.create`: requires truthy projectId and phase and a
present checkpointData, then inserts the row (no CHECK constraint restricts
the phase label in `init.sql`). -/
def checkpointCreate (db : DB) (item : CheckpointItem) :
    Except String (WorkflowCheckpoint × DB) :=
  if jsFalsy item.projectId || jsFalsy item.phase || item.checkpointData.isNone then
    .error "WorkflowCheckpoint projectId, phase, and checkpointData are required"
  else
    let c : WorkflowCheckpoint :=
      { id := genId db.clock, projectId := item.projectId.getD "",
        phase := item.phase.getD "",
        checkpointData := item.checkpointData.getD ⟨[], none, []⟩,
        createdAt := db.clock }
    .ok (c, { db with checkpoints := db.checkpoints ++ [c], clock := db.clock + 1 })

/-- `WorkflowRepository.update`: checkpoints are immutable, the method throws
unconditionally before touching the store. -/
def checkpointUpdate (_db : DB) (_id : String) (_updates : CheckpointItem) :
    Except String (Option WorkflowCheckpoint × DB) :=
  .error "Workflow checkpoints cannot be updated"

/-- Pick the checkpoint with the greatest `created_at` (ORDER BY created_at
DESC LIMIT 1; ties keep the earlier row). -/
def pickLatest : List WorkflowCheckpoint → Option WorkflowCheckpoint
  | [] => none
  | c :: rest =>
    match pickLatest rest with
    | none => some c
    | some b => if b.createdAt > c.createdAt then some b else some c

/-- `WorkflowRepository.getLatestCheckpoint`. -/
def getLatestCheckpoint (db : DB) (pid : String) : Option WorkflowCheckpoint :=
  pickLatest (db.checkpoints.filter (fun c => c.projectId = pid))

/-- `WorkflowRepository.createCheckpoint`: gather the completed and the
in-progress tasks of the phase, record the completed ids and the first
in-progress id; deliverables are left empty by this method. -/
def createCheckpoint (db : DB) (pid phase : String) :
    Except String (WorkflowCheckpoint × DB) :=
  let completedTasks := taskFindByProject db pid { phase := some phase, status := some "completed" }
  let inProgressTasks := taskFindByProject db pid { phase := some phase, status := some "in_progress" }
  let data : CheckpointData :=
    { completedTasks := completedTasks.map (fun t => t.id),
      currentTask := (inProgressTasks.head?).map (fun t => t.id),
      phaseDeliverables := [] }
  checkpointCreate db { projectId := some pid, phase := some phase, checkpointData := some data }

/-- The resume state returned by `WorkflowRepository.resumeWorkflow`. -/
structure WorkflowState where
  project : Project
  currentPhase : String
  checkpoint : Option WorkflowCheckpoint
  pendingTasks : List Task
  completedTasks : List Task
  deriving DecidableEq, Repr

/-- `WorkflowRepository.resumeWorkflow`: fetch the project (fail if absent),
the latest checkpoint (nullable), and the tasks of the project's current
phase, partitioned into completed and not-completed.  All sub-calls are
SELECTs, so the database passes through unchanged. -/
def resumeWorkflow (db : DB) (pid : String) : Except String (WorkflowState × DB) :=
  match findProject db pid with
  | none => .error ("Project not found: " ++ pid)
  | some project =>
    let checkpoint := getLatestCheckpoint db pid
    let allTasks := taskFindByProject db pid { phase := some project.currentPhase }
    let completedTasks := allTasks.filter (fun t => t.status = "completed")
    let pendingTasks := allTasks.filter (fun t => !(t.status = "completed"))
    .ok ({ project := project, currentPhase := project.currentPhase,
           checkpoint := checkpoint, pendingTasks := pendingTasks,
           completedTasks := completedTasks }, db)

-- Server handlers (`server.ts`).  The file-system mirror (FileSync) lives
-- outside the database state and is elided; the handlers below never branch
-- on its results for the store.

/-- MCP error codes used by the handlers. -/
inductive ErrCode where
  | invalidParams
  | internalError
  deriving DecidableEq, Repr

/-- `McpError` as thrown by the handlers. -/
structure McpError where
  code : ErrCode
  msg : String
  deriving DecidableEq, Repr

/-- Run a handler at the tool boundary: a thrown `McpError` leaves the
database as it was. -/
def runMcp {α : Type} (db : DB) (r : Except McpError (α × DB)) : Option McpError × DB :=
  match r with
  | .ok (_, db') => (none, db')
  | .error e => (some e, db)

/-- `handleProjectCreate`: validates the name, creates the project, and
translates a SQLite UNIQUE-constraint failure into a distinct
"already exists" InvalidParams error; other failures become InternalError. -/
def handleProjectCreate (db : DB) (name description : Option String) :
    Except McpError (Project × DB) :=
  if jsFalsy name then
    .error ⟨.invalidParams, "Project name is required and must be a string"⟩
  else
    let nm := name.getD ""
    match projectCreate db { name := some nm, description := description } with
    | .ok (p, db') => .ok (p, db')
    | .error e =>
      if strIncludes e "UNIQUE constraint failed" then
        .error ⟨.invalidParams, "Project with name '" ++ nm ++ "' already exists"⟩
      else
        .error ⟨.internalError, "Failed to create project: " ++ e⟩

/-- `handleContextSave`: destructures the arguments and calls
`AgentSessionRepository.create` — a fresh session row per save. -/
def handleContextSave (db : DB) (projectId agentType : Option String)
    (context : Option Ctx) : Except McpError (AgentSession × DB) :=
  match sessionCreate db
      { projectId := projectId, agentType := agentType, contextData := context } with
  | .ok (s, db') => .ok (s, db')
  | .error e => .error ⟨.internalError, "Tool execution failed: " ++ e⟩

/-- The fixed phase sequence of `handleWorkflowHandoff`. -/
def phaseOrder : List String := ["requirements", "design", "tasks", "execute"]

/-- `currentIndex < phaseOrder.length - 1 ? phaseOrder[currentIndex + 1] :
'complete'` with `currentIndex = phaseOrder.indexOf(currentPhase)`. -/
def nextPhaseOf (currentPhase : String) : String :=
  let currentIndex := jsIndexOf phaseOrder currentPhase
  if currentIndex < 3 then phaseOrder.getD (currentIndex + 1).toNat "" else "complete"

/-- `handleWorkflowHandoff`: validate the arguments, require the project to
exist, persist a checkpoint for the declared phase, compute the next phase
from the fixed sequence, and update the project's current phase unless the
next phase is "complete" (errors raised inside the try-block are wrapped as
InternalError).  Returns the checkpoint and the next phase. -/
def handleWorkflowHandoff (db : DB) (projectId currentPhase : Option String)
    (phaseDeliverables : Option Ctx) (handoffNotes : Option String) :
    Except McpError ((WorkflowCheckpoint × String) × DB) :=
  if jsFalsy projectId then
    .error ⟨.invalidParams, "Project ID is required and must be a string"⟩
  else if jsFalsy currentPhase then
    .error ⟨.invalidParams, "Current phase is required and must be a string"⟩
  else if phaseDeliverables.isNone then
    .error ⟨.invalidParams, "Phase deliverables are required and must be an object"⟩
  else if jsFalsy handoffNotes then
    .error ⟨.invalidParams, "Handoff notes are required and must be a string"⟩
  else
    let pid := projectId.getD ""
    let cur := currentPhase.getD ""
    match findProject db pid with
    | none => .error ⟨.internalError, "Failed to complete handoff: Project not found: " ++ pid⟩
    | some _ =>
      match createCheckpoint db pid cur with
      | .error e => .error ⟨.internalError, "Failed to complete handoff: " ++ e⟩
      | .ok (checkpoint, db1) =>
        let nextPhase := nextPhaseOf cur
        if nextPhase ≠ "complete" then
          match projectUpdate db1 pid { currentPhase := some nextPhase } with
          | .error e => .error ⟨.internalError, "Failed to complete handoff: " ++ e⟩
          | .ok (_, db2) => .ok ((checkpoint, nextPhase), db2)
        else
          .ok ((checkpoint, nextPhase), db1)

/-- The store used for the C1 divergence check: a project in phase
"execute". -/
def dbExecute : DB :=
  ⟨[⟨"p1", "demo", none, "active", "execute", 0, 0⟩], [], [], [], 1⟩

/-- The store used for the C4 divergence check. -/
def dbCtx : DB :=
  ⟨[⟨"p1", "demo", none, "active", "requirements", 0, 0⟩], [], [], [], 1⟩

/-- The store after saving context {"a":1} and then {"b":2} for the same
(project, actor-type) pair through `handleContextSave`. -/
def dbAfterSaves : Option DB :=
  match handleContextSave dbCtx (some "p1") (some "design") (some [("a", .jnum 1)]) with
  | .error _ => none
  | .ok (_, db1) =>
    match handleContextSave db1 (some "p1") (some "design") (some [("b", .jnum 2)]) with
    | .error _ => none
    | .ok (_, db2) => some db2

-- Helper lemmas

/-- `find?` commutes with a conditional rewrite of the rows that preserves the
search predicate (an UPDATE does not change primary keys). -/
theorem find?_map_invariant {α : Type} (l : List α) (g : α → α) (p : α → Bool)
    (h : ∀ a, p (g a) = p a) : (l.map g).find? p = (l.find? p).map g := by
  induction l with
  | nil => rfl
  | cons a t ih =>
    simp only [List.map_cons, List.find?]
    rw [h a]
    cases hp : p a with
    | false => simp [hp, ih]
    | true => simp [hp]

theorem sortInsert_perm (le : Task → Task → Bool) (t : Task) (l : List Task) :
    (sortInsert le t l).Perm (t :: l) := by
  induction l with
  | nil => exact List.Perm.refl _
  | cons b rest ih =>
    by_cases h : le t b
    · simp [sortInsert, h]
    · simp only [sortInsert, if_neg h]
      exact (ih.cons b).trans (List.Perm.swap t b rest)

theorem sortTasks_perm (le : Task → Task → Bool) (l : List Task) :
    (sortTasks le l).Perm l := by
  induction l with
  | nil => exact List.Perm.refl _
  | cons a rest ih =>
    exact (sortInsert_perm le a (sortTasks le rest)).trans (ih.cons a)

theorem buildStep_roots (ids : List String) (f : Forest) (t : Task) :
    (buildStep ids f t).roots
      = if parentResolved ids t = true then f.roots else f.roots ++ [t] := by
  cases hp : t.parentId with
  | none => simp [buildStep, parentResolved, hp]
  | some p =>
    simp only [buildStep, parentResolved, hp]
    by_cases hc : (p ≠ "" && ids.contains p) = true
    · rw [if_pos hc, if_pos hc]
    · rw [if_neg hc, if_neg hc]

theorem buildStep_children (ids : List String) (f : Forest) (t : Task) (k : String) :
    (buildStep ids f t).children k
      = if (t.parentId = some k && parentResolved ids t) = true
        then f.children k ++ [t] else f.children k := by
  cases hp : t.parentId with
  | none => simp [buildStep, parentResolved, hp]
  | some p =>
    simp only [buildStep, parentResolved, hp]
    by_cases hc : (p ≠ "" && ids.contains p) = true
    · have hc' : ¬p = "" ∧ p ∈ ids := by simpa using hc
      rw [if_pos hc]
      show (if k = p then f.children k ++ [t] else f.children k) = _
      by_cases hk : k = p
      · rw [if_pos hk, if_pos (by simp [hk, hc'.1, hc'.2])]
      · rw [if_neg hk, if_neg (by simp; intro h; exact (hk h.symm).elim)]
    · have hres : (p ≠ "" && ids.contains p) = false := eq_false_of_ne_true hc
      rw [if_neg hc, if_neg (by simp; intro _ h1 h2; simp [h1, h2] at hres)]

theorem foldl_buildStep_roots (ids : List String) (l : List Task) (f : Forest) :
    (l.foldl (buildStep ids) f).roots
      = f.roots ++ l.filter (fun t => !(parentResolved ids t)) := by
  induction l generalizing f with
  | nil => simp
  | cons t rest ih =>
    rw [List.foldl_cons, ih, buildStep_roots]
    cases hres : parentResolved ids t with
    | false =>
      rw [if_neg (by simp), List.filter_cons_of_pos (by simp [hres])]
      simp
    | true =>
      rw [if_pos rfl, List.filter_cons_of_neg (by simp [hres])]

theorem foldl_buildStep_children (ids : List String) (l : List Task) (f : Forest)
    (k : String) :
    (l.foldl (buildStep ids) f).children k
      = f.children k
        ++ l.filter (fun t => t.parentId = some k && parentResolved ids t) := by
  induction l generalizing f with
  | nil => simp
  | cons t rest ih =>
    rw [List.foldl_cons, ih, buildStep_children]
    cases hcond : (t.parentId = some k && parentResolved ids t) with
    | false =>
      rw [if_neg (by simp), List.filter_cons_of_neg (by simp [hcond])]
    | true =>
      rw [if_pos rfl, List.filter_cons_of_pos (by simp [hcond])]
      simp

theorem flatMap_if_insert (g : String → List Task) (t : Task) {ids : List String}
    {p0 : String} (hnd : ids.Nodup) (hp : p0 ∈ ids) :
    (ids.flatMap (fun p => if p = p0 then t :: g p else g p)).Perm
      (t :: ids.flatMap g) := by
  induction ids with
  | nil => cases hp
  | cons a rest ih =>
    have hna : a ∉ rest := (List.nodup_cons.mp hnd).1
    have hndr : rest.Nodup := (List.nodup_cons.mp hnd).2
    rw [List.flatMap_cons, List.flatMap_cons]
    rcases List.mem_cons.mp hp with hEq | hmem
    · rw [if_pos hEq.symm]
      have hrest : rest.flatMap (fun p => if p = p0 then t :: g p else g p)
          = rest.flatMap g := by
        apply List.flatMap_congr
        intro p hpr
        have : p ≠ p0 := fun hpp => hna (by rw [← hEq, ← hpp]; exact hpr)
        rw [if_neg this]
      rw [hrest]
      exact List.Perm.refl _
    · have ha : a ≠ p0 := fun hpp => hna (hpp ▸ hmem)
      rw [if_neg ha]
      exact ((ih hndr hmem).append_left (g a)).trans List.perm_middle

theorem group_resolved (ids : List String) (hnd : ids.Nodup) (l : List Task) :
    (l.filter (parentResolved ids)).Perm
      (ids.flatMap
        (fun p => l.filter (fun t => t.parentId = some p && parentResolved ids t))) := by
  induction l with
  | nil => simp
  | cons t rest ih =>
    cases hres : parentResolved ids t with
    | false =>
      rw [List.filter_cons_of_neg (by simp [hres])]
      have hrw : ids.flatMap
          (fun p => (t :: rest).filter (fun u => u.parentId = some p && parentResolved ids u))
          = ids.flatMap
            (fun p => rest.filter (fun u => u.parentId = some p && parentResolved ids u)) := by
        apply List.flatMap_congr
        intro p _
        exact List.filter_cons_of_neg (by simp [hres])
      rw [hrw]
      exact ih
    | true =>
      obtain ⟨p0, hp0⟩ : ∃ p0, t.parentId = some p0 := by
        cases hpp : t.parentId with
        | none => rw [parentResolved, hpp] at hres; cases hres
        | some q => exact ⟨q, rfl⟩
      have hin : p0 ∈ ids := by
        rw [parentResolved, hp0, Bool.and_eq_true] at hres
        exact List.elem_iff.mp hres.2
      rw [List.filter_cons_of_pos (by simp [hres])]
      have hrw : ids.flatMap
          (fun p => (t :: rest).filter (fun u => u.parentId = some p && parentResolved ids u))
          = ids.flatMap (fun p =>
              if p = p0 then
                t :: rest.filter (fun u => u.parentId = some p && parentResolved ids u)
              else rest.filter (fun u => u.parentId = some p && parentResolved ids u)) := by
        apply List.flatMap_congr
        intro p _
        by_cases hpe : p = p0
        · subst hpe
          rw [if_pos rfl, List.filter_cons_of_pos (by simp [hp0, hres])]
        · rw [if_neg hpe, List.filter_cons_of_neg (by simp [hp0, Ne.symm hpe, hpe])]
      rw [hrw]
      exact (ih.cons t).trans
        (flatMap_if_insert
          (fun p => rest.filter (fun u => u.parentId = some p && parentResolved ids u))
          t hnd hin).symm

/-- JS `indexOf` returns `-1` exactly on a missing element. -/
theorem jsIndexOf_of_not_mem {l : List String} {s : String} (h : s ∉ l) :
    jsIndexOf l s = -1 := by
  induction l with
  | nil => rfl
  | cons a t ih =>
    have ha : a ≠ s := fun hEq => h (hEq ▸ List.mem_cons_self a t)
    have ht : s ∉ t := fun hm => h (List.mem_cons_of_mem a hm)
    simp [jsIndexOf, ha, ih ht]

theorem pickLatest_eq_none {l : List WorkflowCheckpoint} :
    pickLatest l = none ↔ l = [] := by
  cases l with
  | nil => simp [pickLatest]
  | cons c rest =>
    cases hr : pickLatest rest with
    | none => simp [pickLatest, hr]
    | some b =>
      simp only [pickLatest, hr]
      by_cases hb : b.createdAt > c.createdAt <;> simp [hb]

theorem pickLatest_mem {l : List WorkflowCheckpoint} {c : WorkflowCheckpoint}
    (h : pickLatest l = some c) : c ∈ l := by
  induction l generalizing c with
  | nil => simp [pickLatest] at h
  | cons a rest ih =>
    cases hr : pickLatest rest with
    | none =>
      simp only [pickLatest, hr, Option.some.injEq] at h
      exact h ▸ List.mem_cons_self a rest
    | some b =>
      simp only [pickLatest, hr] at h
      by_cases hb : b.createdAt > a.createdAt
      · rw [if_pos hb, Option.some.injEq] at h
        exact h ▸ List.mem_cons_of_mem a (ih hr)
      · rw [if_neg hb, Option.some.injEq] at h
        exact h ▸ List.mem_cons_self a rest

theorem pickLatest_max {l : List WorkflowCheckpoint} {c : WorkflowCheckpoint}
    (h : pickLatest l = some c) : ∀ b ∈ l, b.createdAt ≤ c.createdAt := by
  induction l generalizing c with
  | nil => simp [pickLatest] at h
  | cons a rest ih =>
    intro b hb
    cases hr : pickLatest rest with
    | none =>
      simp only [pickLatest, hr, Option.some.injEq] at h
      rcases List.mem_cons.mp hb with hba | hbr
      · exact hba ▸ h ▸ le_refl _
      · exact absurd hbr (by simp [pickLatest_eq_none.mp hr])
    | some m =>
      simp only [pickLatest, hr] at h
      by_cases hm : m.createdAt > a.createdAt
      · rw [if_pos hm, Option.some.injEq] at h
        rcases List.mem_cons.mp hb with hba | hbr
        · exact h ▸ hba ▸ le_of_lt hm
        · exact h ▸ ih hr b hbr
      · rw [if_neg hm, Option.some.injEq] at h
        rcases List.mem_cons.mp hb with hba | hbr
        · exact h ▸ hba ▸ le_refl _
        · exact h ▸ le_trans (ih hr b hbr) (not_lt.mp hm)

-- Claim theorems

/-- Claim C2: for every existing workflow checkpoint and every update payload,
`WorkflowRepository.update` fails with the dedicated immutability error and
the stored checkpoint record is left entirely unchanged (no partial write,
never a silent no-op). -/
theorem checkpointUpdate_immutable (db : DB) (id : String) (u : CheckpointItem)
    (c : WorkflowCheckpoint) (hc : c ∈ db.checkpoints) :
    runExc db (checkpointUpdate db id u)
      = (some "Workflow checkpoints cannot be updated", db)
    ∧ c ∈ (runExc db (checkpointUpdate db id u)).2.checkpoints
    ∧ (runExc db (checkpointUpdate db id u)).2 = db := by
  refine ⟨rfl, ?_, rfl⟩
  simpa [runExc, checkpointUpdate] using hc

/-- Witness for C2 at a concrete store holding one checkpoint. -/
theorem checkpointUpdate_immutable_witness :
    let c : WorkflowCheckpoint := ⟨"c1", "p1", "requirements", ⟨[], none, []⟩, 0⟩
    let db : DB := ⟨[], [], [], [c], 1⟩
    runExc db (checkpointUpdate db "c1" {})
      = (some "Workflow checkpoints cannot be updated", db)
    ∧ c ∈ (runExc db (checkpointUpdate db "c1" {})).2.checkpoints
    ∧ (runExc db (checkpointUpdate db "c1" {})).2 = db :=
  checkpointUpdate_immutable _ "c1" {} _ (by decide)

/-- Claim C9: a task update whose status value is outside
{pending, in_progress, blocked, completed} fails naming the offending value,
and the store — including any other valid fields supplied in the same
update — is left entirely unchanged: validation precedes any mutation. -/
theorem taskUpdate_invalid_status (db : DB) (id : String) (u : TaskUpdates)
    (s : String) (hs : u.status = some s) (hv : isValidTaskStatus s = false) :
    runExc db (taskUpdate db id u) = (some ("Invalid task status: " ++ s), db) := by
  simp [taskUpdate, hs, hv, runExc]

/-- Witness for C9: an update carrying both a valid title change and the
invalid status "done" is rejected whole. -/
theorem taskUpdate_invalid_status_witness :
    let t : Task := ⟨"t1", "p1", none, "old title", none, "requirements",
      "pending", none, 1, [], [], 0, 0⟩
    let db : DB := ⟨[], [t], [], [], 1⟩
    let u : TaskUpdates := { title := some "new title", status := some "done" }
    isValidTaskStatus "done" = false
    ∧ runExc db (taskUpdate db "t1" u) = (some ("Invalid task status: " ++ "done"), db) :=
  ⟨by decide, taskUpdate_invalid_status _ "t1" _ "done" rfl (by decide)⟩

/-- Claim C7: `resumeWorkflow` performs no writes — a successful call returns
the store unchanged — and calling it again with no intervening mutation
returns the same result. -/
theorem resumeWorkflow_readonly_idempotent (db : DB) (pid : String)
    (st : WorkflowState) (db' : DB) (h : resumeWorkflow db pid = .ok (st, db')) :
    db' = db ∧ resumeWorkflow db' pid = .ok (st, db') := by
  cases hf : findProject db pid with
  | none => simp [resumeWorkflow, hf] at h
  | some project =>
    simp only [resumeWorkflow, hf, Except.ok.injEq, Prod.mk.injEq] at h
    obtain ⟨hst, hdb⟩ := h
    subst hdb
    exact ⟨rfl, by simp only [resumeWorkflow, hf, hst]⟩

/-- Witness for C7 at a concrete store. -/
theorem resumeWorkflow_readonly_idempotent_witness :
    let p : Project := ⟨"p1", "demo", none, "active", "requirements", 0, 0⟩
    let db : DB := ⟨[p], [], [], [], 1⟩
    let st : WorkflowState := ⟨p, "requirements", none, [], []⟩
    resumeWorkflow db "p1" = .ok (st, db)
    ∧ (db = db ∧ resumeWorkflow db "p1" = .ok (st, db)) :=
  ⟨by rfl, resumeWorkflow_readonly_idempotent _ "p1" _ _ (by rfl)⟩

/-- Claim C8: creating a project whose name an existing project already has
fails with the dedicated "already exists" constraint error (InvalidParams,
distinct from the generic InternalError wrapping), and the store — hence the
first project — is left unchanged and retrievable. -/
theorem projectCreate_duplicate_name (db : DB) (nm : String) (desc : Option String)
    (p : Project) (hp : p ∈ db.projects) (hn : p.name = nm) (hne : nm ≠ "") :
    runMcp db (handleProjectCreate db (some nm) desc)
      = (some ⟨.invalidParams, "Project with name '" ++ nm ++ "' already exists"⟩, db)
    ∧ p ∈ (runMcp db (handleProjectCreate db (some nm) desc)).2.projects := by
  have hfalsy : jsFalsy (some nm) = false := by simp [jsFalsy, hne]
  have hdup : db.projects.any (fun q => q.name = nm) = true :=
    List.any_eq_true.mpr ⟨p, hp, by simp [hn]⟩
  have hinc : strIncludes "UNIQUE constraint failed: projects.name"
      "UNIQUE constraint failed" = true := by decide
  constructor
  · simp [handleProjectCreate, projectCreate, hfalsy, hdup, hinc, runMcp]
  · simpa [handleProjectCreate, projectCreate, hfalsy, hdup, hinc, runMcp] using hp

/-- A valid project phase is a non-empty string. -/
theorem validPhase_ne_empty {p : String} (h : isValidProjectPhase p = true) :
    p ≠ "" := by
  intro hEq
  subst hEq
  simp [isValidProjectPhase] at h

/-- With only a (non-falsy) phase filter, the WHERE clause of `findByProject`
reduces to the project and phase tests. -/
theorem taskMatchesFilter_phase (pid phase : String) (hph : phase ≠ "") (t : Task) :
    taskMatchesFilter pid { phase := some phase } t
      = (t.projectId = pid && t.phase = phase) := by
  simp [taskMatchesFilter, jsFalsy, hph]

/-- Claim C3: `checkDependencies` returns true for an empty dependency list,
and otherwise returns true iff the count of dependency ids that resolve to an
existing task whose status is not "completed" is zero — a dangling id is
excluded from that count and never blocks. -/
theorem checkDependencies_spec (db : DB) (tid : String) (t : Task)
    (ht : findTask db tid = some t) :
    checkDependencies db tid = true ↔
      (t.dependencies = [] ∨
        (t.dependencies.filter
          (fun d => db.tasks.any (fun u => u.id = d && u.status ≠ "completed"))).length
          = 0) := by
  by_cases hdep : t.dependencies = []
  · simp [checkDependencies, ht, hdep]
  · have hlhs : checkDependencies db tid
        = decide ((db.tasks.filter
            (fun u => t.dependencies.contains u.id && u.status ≠ "completed")).length = 0) := by
      simp only [checkDependencies, ht, if_neg hdep]
    rw [hlhs, decide_eq_true_eq]
    simp only [hdep, false_or, List.length_eq_zero, List.filter_eq_nil_iff,
      Bool.and_eq_true, List.elem_iff, decide_eq_true_eq, List.any_eq_true,
      not_and, not_exists]
    constructor
    · intro h d hd u hu hid
      exact h u hu (hid ▸ hd)
    · intro h u hu hmem
      exact h u.id hmem u hu rfl

/-- Witness for C3: a task with one completed, one incomplete and one dangling
dependency. -/
theorem checkDependencies_spec_witness :
    let t1 : Task := ⟨"t1", "p1", none, "a", none, "requirements", "completed",
      none, 1, [], [], 0, 0⟩
    let t2 : Task := ⟨"t2", "p1", none, "b", none, "requirements", "pending",
      none, 1, [], [], 0, 0⟩
    let t3 : Task := ⟨"t3", "p1", none, "c", none, "requirements", "pending",
      none, 1, [], ["t1", "t2", "ghost"], 0, 0⟩
    let db : DB := ⟨[], [t1, t2, t3], [], [], 1⟩
    findTask db "t3" = some t3
    ∧ (checkDependencies db "t3" = true ↔
        (t3.dependencies = [] ∨
          (t3.dependencies.filter
            (fun d => db.tasks.any (fun u => u.id = d && u.status ≠ "completed"))).length
            = 0)) :=
  ⟨by decide, checkDependencies_spec _ "t3" _ (by decide)⟩

/-- Claim C5: over any flat task list with distinct (non-empty) ids, the two
passes of `getTaskTree` give every task exactly one position: a task whose
parentId is set and present among the ids appears exactly once in that
parent's children list, every other task appears exactly once as a root, and
nothing is dropped or duplicated (the roots plus all children lists are a
permutation of the input), regardless of input order.  The hypotheses hold
for every stored task set: ids are the primary key and are generated as
32-character hex strings, hence distinct and non-empty. -/
theorem getTaskTree_positions (tasks : List Task)
    (hnd : (tasks.map (fun u => u.id)).Nodup)
    (hne : "" ∉ tasks.map (fun u => u.id)) :
    (buildTaskTree tasks).roots
        = tasks.filter (fun t =>
            match t.parentId with
            | some p => !((tasks.map (fun u => u.id)).contains p)
            | none => true)
    ∧ (∀ p ∈ tasks.map (fun u => u.id),
        (buildTaskTree tasks).children p
          = tasks.filter (fun t => t.parentId = some p))
    ∧ ((buildTaskTree tasks).roots
        ++ (tasks.map (fun u => u.id)).flatMap (buildTaskTree tasks).children).Perm
        tasks := by
  have hres_eq : ∀ t : Task, parentResolved (tasks.map (fun u => u.id)) t
      = (match t.parentId with
         | some p => (tasks.map (fun u => u.id)).contains p
         | none => false) := by
    intro t
    cases hp : t.parentId with
    | none => simp [parentResolved, hp]
    | some p =>
      simp only [parentResolved, hp]
      by_cases hcont : (tasks.map (fun u => u.id)).contains p = true
      · have hpne : p ≠ "" := fun hEq => hne (hEq ▸ List.elem_iff.mp hcont)
        rw [hcont, Bool.and_true]
        exact decide_eq_true hpne
      · have hf : (tasks.map (fun u => u.id)).contains p = false :=
          eq_false_of_ne_true hcont
        rw [hf, Bool.and_false]
  have hroots : (buildTaskTree tasks).roots
      = tasks.filter (fun t => !(parentResolved (tasks.map (fun u => u.id)) t)) := by
    rw [buildTaskTree, foldl_buildStep_roots]
    simp
  have hch : ∀ k, (buildTaskTree tasks).children k
      = tasks.filter
          (fun t => t.parentId = some k && parentResolved (tasks.map (fun u => u.id)) t) := by
    intro k
    rw [buildTaskTree, foldl_buildStep_children]
    simp
  refine ⟨?_, ?_, ?_⟩
  · rw [hroots]
    apply List.filter_congr
    intro t _
    cases hp : t.parentId with
    | none => simp [hres_eq t, hp]
    | some p => simp [hres_eq t, hp]
  · intro p hpmem
    rw [hch p]
    apply List.filter_congr
    intro t _
    cases hpt : t.parentId with
    | none => simp [hpt]
    | some q =>
      by_cases hq : q = p
      · subst hq
        have hcont : (tasks.map (fun u => u.id)).contains q = true :=
          List.elem_iff.mpr hpmem
        have hresT : parentResolved (tasks.map (fun u => u.id)) t = true := by
          rw [hres_eq t]
          simp only [hpt]
          exact hcont
        simp [hpt, hresT]
      · simp [hpt, hq]
  · have hchf : (tasks.map (fun u => u.id)).flatMap (buildTaskTree tasks).children
        = (tasks.map (fun u => u.id)).flatMap
            (fun p => tasks.filter
              (fun t => t.parentId = some p
                && parentResolved (tasks.map (fun u => u.id)) t)) :=
      List.flatMap_congr (fun p _ => hch p)
    rw [hroots, hchf]
    have hg := group_resolved (tasks.map (fun u => u.id)) hnd tasks
    have hstep1 := hg.symm.append_left
      (tasks.filter (fun t => !(parentResolved (tasks.map (fun u => u.id)) t)))
    exact hstep1.trans (List.perm_append_comm.trans
      (List.filter_append_perm (parentResolved (tasks.map (fun u => u.id))) tasks))

/-- Witness for C5: three tasks — a root, a child of the root, and a task
with an unresolved parent id — in that concrete store. -/
theorem getTaskTree_positions_witness :
    let t1 : Task := ⟨"t1", "p1", none, "a", none, "requirements", "pending",
      none, 1, [], [], 0, 0⟩
    let t2 : Task := ⟨"t2", "p1", some "t1", "b", none, "requirements", "pending",
      none, 1, [], [], 0, 0⟩
    let t3 : Task := ⟨"t3", "p1", some "zz", "c", none, "requirements", "pending",
      none, 1, [], [], 0, 0⟩
    ((([t1, t2, t3] : List Task).map (fun u => u.id)).Nodup
      ∧ "" ∉ ([t1, t2, t3] : List Task).map (fun u => u.id))
    ∧ ((buildTaskTree [t1, t2, t3]).roots
          = ([t1, t2, t3] : List Task).filter (fun t =>
              match t.parentId with
              | some p => !((([t1, t2, t3] : List Task).map (fun u => u.id)).contains p)
              | none => true)
        ∧ (∀ p ∈ ([t1, t2, t3] : List Task).map (fun u => u.id),
            (buildTaskTree [t1, t2, t3]).children p
              = ([t1, t2, t3] : List Task).filter (fun t => t.parentId = some p))
        ∧ ((buildTaskTree [t1, t2, t3]).roots
            ++ (([t1, t2, t3] : List Task).map (fun u => u.id)).flatMap
                (buildTaskTree [t1, t2, t3]).children).Perm [t1, t2, t3]) :=
  ⟨⟨by decide, by decide⟩, getTaskTree_positions _ (by decide) (by decide)⟩

/-- Claim C6: resume fails iff the project does not exist; on success it
returns the project snapshot, its current phase, the latest checkpoint (null
when none exists, which is not an error), and a disjoint, jointly exhaustive
partition of exactly the current-phase tasks into completed and pending.
The hypothesis holds for every stored project: `current_phase` is CHECK
constrained to the phase enumeration by the schema. -/
theorem resumeWorkflow_spec (db : DB) (pid : String)
    (hwf : ∀ p ∈ db.projects, isValidProjectPhase p.currentPhase = true) :
    ((∃ st db', resumeWorkflow db pid = .ok (st, db')) ↔ ∃ p ∈ db.projects, p.id = pid)
    ∧ (resumeWorkflow db pid = .error ("Project not found: " ++ pid)
        ↔ ¬ ∃ p ∈ db.projects, p.id = pid)
    ∧ (∀ st db', resumeWorkflow db pid = .ok (st, db') →
        findProject db pid = some st.project
        ∧ st.currentPhase = st.project.currentPhase
        ∧ (st.checkpoint = none ↔ ∀ c ∈ db.checkpoints, c.projectId ≠ pid)
        ∧ (∀ c, st.checkpoint = some c → c ∈ db.checkpoints ∧ c.projectId = pid
            ∧ ∀ c' ∈ db.checkpoints, c'.projectId = pid → c'.createdAt ≤ c.createdAt)
        ∧ (∀ t ∈ st.completedTasks, t.status = "completed")
        ∧ (∀ t ∈ st.pendingTasks, ¬ t.status = "completed")
        ∧ (st.completedTasks ++ st.pendingTasks).Perm
            (db.tasks.filter
              (fun t => t.projectId = pid && t.phase = st.project.currentPhase))) := by
  cases hf : findProject db pid with
  | none =>
    have hno : ¬ ∃ p ∈ db.projects, p.id = pid := by
      rw [findProject, List.find?_eq_none] at hf
      rintro ⟨p, hp, hid⟩
      exact absurd (by simp [hid]) (hf p hp)
    refine ⟨?_, ?_, ?_⟩
    · simp [resumeWorkflow, hf, hno]
    · simp [resumeWorkflow, hf, hno]
    · intro st db' h
      simp [resumeWorkflow, hf] at h
  | some project =>
    have hmem : project ∈ db.projects := List.mem_of_find?_eq_some hf
    have hid : project.id = pid := by
      have := List.find?_some hf
      simpa using this
    have hyes : ∃ p ∈ db.projects, p.id = pid := ⟨project, hmem, hid⟩
    have hph : project.currentPhase ≠ "" := validPhase_ne_empty (hwf project hmem)
    refine ⟨by simp [resumeWorkflow, hf, hyes], by simp [resumeWorkflow, hf, hyes], ?_⟩
    intro st db' h
    simp only [resumeWorkflow, hf, Except.ok.injEq, Prod.mk.injEq] at h
    obtain ⟨hst, hdb⟩ := h
    have hproj : st.project = project := by rw [← hst]
    have hcur : st.currentPhase = project.currentPhase := by rw [← hst]
    have hcp : st.checkpoint = getLatestCheckpoint db pid := by rw [← hst]
    have hcomp : st.completedTasks
        = (taskFindByProject db pid { phase := some project.currentPhase }).filter
            (fun t => t.status = "completed") := by rw [← hst]
    have hpend : st.pendingTasks
        = (taskFindByProject db pid { phase := some project.currentPhase }).filter
            (fun t => !(decide (t.status = "completed"))) := by rw [← hst]
    refine ⟨by rw [hproj], by rw [hcur, hproj], ?_, ?_, ?_, ?_, ?_⟩
    · rw [hcp]
      constructor
      · intro hn
        rw [getLatestCheckpoint, pickLatest_eq_none, List.filter_eq_nil_iff] at hn
        intro c hc hEq
        exact absurd (by simp [hEq]) (hn c hc)
      · intro hall
        rw [getLatestCheckpoint, pickLatest_eq_none, List.filter_eq_nil_iff]
        intro c hc
        simp [hall c hc]
    · intro c hc
      rw [hcp, getLatestCheckpoint] at hc
      have hmemf := pickLatest_mem hc
      rw [List.mem_filter] at hmemf
      refine ⟨hmemf.1, by simpa using hmemf.2, ?_⟩
      intro c' hc' hprid
      exact pickLatest_max hc c' (List.mem_filter.mpr ⟨hc', by simp [hprid]⟩)
    · intro t htm
      rw [hcomp] at htm
      exact of_decide_eq_true (List.mem_filter.mp htm).2
    · intro t htm
      rw [hpend] at htm
      simpa using (List.mem_filter.mp htm).2
    · have h1 :
          ((taskFindByProject db pid { phase := some project.currentPhase }).filter
              (fun t => t.status = "completed")
            ++ (taskFindByProject db pid { phase := some project.currentPhase }).filter
              (fun t => !(decide (t.status = "completed")))).Perm
            (taskFindByProject db pid { phase := some project.currentPhase }) :=
        List.filter_append_perm _ _
      have h2 : (taskFindByProject db pid { phase := some project.currentPhase }).Perm
          (db.tasks.filter (taskMatchesFilter pid { phase := some project.currentPhase })) :=
        sortTasks_perm taskLe
          (db.tasks.filter (taskMatchesFilter pid { phase := some project.currentPhase }))
      have h3 : db.tasks.filter (taskMatchesFilter pid { phase := some project.currentPhase })
          = db.tasks.filter (fun t => t.projectId = pid && t.phase = project.currentPhase) :=
        List.filter_congr (fun t _ => taskMatchesFilter_phase pid project.currentPhase hph t)
      rw [hcomp, hpend, hproj, ← h3]
      exact h1.trans h2

/-- Witness for C6 at a concrete store with two current-phase tasks and one
checkpoint. -/
theorem resumeWorkflow_spec_witness :
    let p : Project := ⟨"p1", "demo", none, "active", "design", 0, 0⟩
    let t1 : Task := ⟨"t1", "p1", none, "a", none, "design", "completed",
      none, 1, [], [], 0, 0⟩
    let t2 : Task := ⟨"t2", "p1", none, "b", none, "design", "pending",
      none, 1, [], [], 0, 0⟩
    let t3 : Task := ⟨"t3", "p1", none, "c", none, "requirements", "pending",
      none, 1, [], [], 0, 0⟩
    let c1 : WorkflowCheckpoint := ⟨"c1", "p1", "requirements", ⟨[], none, []⟩, 2⟩
    let db : DB := ⟨[p], [t1, t2, t3], [], [c1], 3⟩
    (∀ q ∈ db.projects, isValidProjectPhase q.currentPhase = true)
    ∧ ((∃ st db', resumeWorkflow db "p1" = .ok (st, db')) ↔ ∃ q ∈ db.projects, q.id = "p1") := by
  refine ⟨by decide, ?_⟩
  exact (resumeWorkflow_spec _ "p1" (by decide)).1

/-- Claim C1 divergence: a handoff declaring currentPhase = "execute"
succeeds with next phase "complete", but the stored project's status stays
"active" (and its phase stays "execute") — `handleWorkflowHandoff` has no
code path that sets the status to "completed", contrary to the claim and to
the repository's own test `should complete project after execute phase`. -/
theorem handoff_execute_leaves_status_unchanged :
    ((handleWorkflowHandoff dbExecute (some "p1") (some "execute") (some [])
        (some "done")).toOption.map
      (fun r => (r.1.2, (findProject r.2 "p1").map (fun p => (p.status, p.currentPhase)))))
      = some ("complete", some ("active", "execute")) := by
  rfl

/-- Claim C4 divergence: after the two saves the store holds two separate
sessions with blobs {"a":1} and {"b":2}; the (project, actor-type) lookup
returns the fresh {"b":2} blob, not the shallow merge {"a":1,"b":2} that the
claim (and `AgentSessionRepository.updateContext`, which `handleContextSave`
never calls) prescribes. -/
theorem contextSave_creates_new_session :
    dbAfterSaves.map (fun d =>
        (d.sessions.map (fun s => s.contextData),
         (findByProjectAndType d "p1" "design").map (fun s => s.contextData)))
      = some ([[("a", JVal.jnum 1)], [("b", JVal.jnum 2)]], some [("b", JVal.jnum 2)])
    ∧ ctxMerge [("a", JVal.jnum 1)] [("b", JVal.jnum 2)]
        = [("a", JVal.jnum 1), ("b", JVal.jnum 2)]
    ∧ ([("b", JVal.jnum 2)] : Ctx) ≠ [("a", JVal.jnum 1), ("b", JVal.jnum 2)] :=
  ⟨by rfl, by rfl, by decide⟩

/-- Claim C10: a handoff declaring a non-empty currentPhase outside the
fixed sequence is not rejected: a checkpoint carrying the unknown label is
persisted, the next phase is computed as "requirements" (the element after
index -1), and the project's currentPhase is updated to "requirements". -/
theorem handoff_unknown_phase (db : DB) (pid cur : String) (deliv : Ctx)
    (notes : String) (project : Project) (hp : findProject db pid = some project)
    (hpid : pid ≠ "") (hcur : cur ≠ "") (hnotes : notes ≠ "")
    (hun : cur ∉ phaseOrder) :
    ∃ cp db',
      handleWorkflowHandoff db (some pid) (some cur) (some deliv) (some notes)
        = .ok ((cp, "requirements"), db')
      ∧ cp.phase = cur
      ∧ cp ∈ db'.checkpoints
      ∧ ∃ p', findProject db' pid = some p' ∧ p'.currentPhase = "requirements" := by
  have hfP : jsFalsy (some pid) = false := by simp [jsFalsy, hpid]
  have hfC : jsFalsy (some cur) = false := by simp [jsFalsy, hcur]
  have hfN : jsFalsy (some notes) = false := by simp [jsFalsy, hnotes]
  have hidx : jsIndexOf phaseOrder cur = -1 := jsIndexOf_of_not_mem hun
  have hnext : nextPhaseOf cur = "requirements" := by
    simp only [nextPhaseOf, hidx]
    rfl
  cases hcc : createCheckpoint db pid cur with
  | error e =>
    exfalso
    simp [createCheckpoint, checkpointCreate, hfP, hfC] at hcc
  | ok pair =>
    obtain ⟨cp, db1⟩ := pair
    have hccEq := hcc
    simp only [createCheckpoint, checkpointCreate, hfP, hfC, Bool.or_false,
      Bool.false_or, Option.isNone_some, Bool.or_self, Bool.false_eq_true,
      if_false, Except.ok.injEq, Prod.mk.injEq, Option.getD_some] at hcc
    obtain ⟨hcp, hdb1⟩ := hcc
    have hcpphase : cp.phase = cur := by rw [← hcp]
    have hdb1ck : db1.checkpoints = db.checkpoints ++ [cp] := by
      rw [← hdb1, ← hcp]
    have hdb1proj : db1.projects = db.projects := by rw [← hdb1]
    have hfind1 : findProject db1 pid = some project := by
      rw [findProject, hdb1proj, ← findProject, hp]
    cases hup : projectUpdate db1 pid { currentPhase := some "requirements" } with
    | error e =>
      exfalso
      simp [projectUpdate, projectUpdate.projectUpdateChecked,
        projectUpdate.projectUpdateRun, projectHasClause, hfind1,
        isValidProjectPhase] at hup
    | ok pair2 =>
      obtain ⟨res, db2⟩ := pair2
      have hgpres : ∀ q : Project,
          (decide ((if q.id = pid
              then applyProjectUpdates q { currentPhase := some "requirements" } db1.clock
              else q).id = pid)) = (decide (q.id = pid)) := by
        intro q
        by_cases hq : q.id = pid
        · simp [hq, applyProjectUpdates]
        · simp [hq]
      have hpidproj : project.id = pid := by
        have := List.find?_some hp
        simpa using this
      have hupEq := hup
      simp only [projectUpdate, projectUpdate.projectUpdateChecked,
        projectUpdate.projectUpdateRun, projectHasClause, hfind1,
        isValidProjectPhase] at hup
      rw [if_neg (by decide), if_neg (by simp)] at hup
      simp only [Option.any_none, Bool.false_eq_true, if_false,
        Except.ok.injEq, Prod.mk.injEq] at hup
      obtain ⟨hres, hdb2⟩ := hup
      have hdb2ck : db2.checkpoints = db.checkpoints ++ [cp] := by
        rw [← hdb2, hdb1ck]
      have hfind2 : findProject db2 pid
          = some (applyProjectUpdates project { currentPhase := some "requirements" }
              db1.clock) := by
        rw [← hdb2, findProject]
        show (db1.projects.map
            (fun q => if q.id = pid
              then applyProjectUpdates q { currentPhase := some "requirements" } db1.clock
              else q)).find? (fun q => q.id = pid) = _
        rw [find?_map_invariant _ _ _ hgpres]
        rw [show db1.projects.find? (fun q => q.id = pid) = some project from hfind1]
        rw [Option.map_some', if_pos hpidproj]
      refine ⟨cp, db2, ?_, hcpphase, ?_, ?_⟩
      · simp only [handleWorkflowHandoff, hfP, hfC, hfN, Option.isNone_some,
          Bool.false_eq_true, if_false, Option.getD_some, hp, hccEq, hnext]
        rw [if_pos (by decide)]
        rw [hupEq]
      · rw [hdb2ck]
        exact List.mem_append_right _ (List.mem_singleton.mpr rfl)
      · exact ⟨_, hfind2, rfl⟩

/-- Witness for C10: a handoff declaring the unknown phase "weird" against a
project currently in phase "design". -/
theorem handoff_unknown_phase_witness :
    let p : Project := ⟨"p1", "demo", none, "active", "design", 0, 0⟩
    let db : DB := ⟨[p], [], [], [], 1⟩
    (findProject db "p1" = some p ∧ ("p1" : String) ≠ "" ∧ ("weird" : String) ≠ ""
      ∧ ("note" : String) ≠ "" ∧ "weird" ∉ phaseOrder)
    ∧ (∃ cp db',
        handleWorkflowHandoff db (some "p1") (some "weird") (some []) (some "note")
          = .ok ((cp, "requirements"), db')
        ∧ cp.phase = "weird"
        ∧ cp ∈ db'.checkpoints
        ∧ ∃ p', findProject db' "p1" = some p' ∧ p'.currentPhase = "requirements") :=
  ⟨⟨by decide, by decide, by decide, by decide, by decide⟩,
    handoff_unknown_phase _ "p1" "weird" [] "note"
      ⟨"p1", "demo", none, "active", "design", 0, 0⟩ (by decide) (by decide)
      (by decide) (by decide) (by decide)⟩

/-- Witness for C8: the second creation of a project named "dup" fails with
the already-exists error and the first project is still stored. -/
theorem projectCreate_duplicate_name_witness :
    let p : Project := ⟨"p1", "dup", none, "active", "requirements", 0, 0⟩
    let db : DB := ⟨[p], [], [], [], 1⟩
    runMcp db (handleProjectCreate db (some "dup") none)
      = (some ⟨.invalidParams, "Project with name '" ++ "dup" ++ "' already exists"⟩, db)
    ∧ p ∈ (runMcp db (handleProjectCreate db (some "dup") none)).2.projects :=
  projectCreate_duplicate_name _ "dup" none _ (by decide) (by decide) (by decide)

end MiniAgent
